import Mathlib

set_option maxHeartbeats 1000000

/-!
Shallow embedding of the Obsidian "Linear Calendar" plugin (src/main.ts):
the date extractor, the event-index builder, the grid-layout arithmetic,
the scale adjusters, the settings-label updates and the per-day event
rendering, together with theorems settling the specification claims.

Conventions of the embedding:
* A JS Date is represented by the calendar date it denotes in the local
  time zone: a CalDate with a 1-based month, mirroring the accessors
  getFullYear / getMonth() + 1 / getDate used by the code.
* The moment library (an external dependency, not part of src/) enters the
  extractor only through two parsing functions; they are passed as explicit
  parameters (strict filename parsing and lenient frontmatter parsing), and
  a concrete model of strict parsing for the literal format "YYYY-MM-DD"
  is provided where a claim fixes that format.
* JS numbers in the scale adjuster are modelled by exact rationals.
-/

/-- A calendar date as exposed by the host Date accessors getFullYear,
getMonth() + 1 and getDate (local time).  The month is 1-based. -/
structure CalDate where
  year : Nat
  month : Nat
  day : Nat
  deriving DecidableEq, Repr

/-- A frontmatter value as seen by the extractor: a string, an
already-date-typed value, or anything else (carrying only its JS
truthiness). -/
inductive FMValue where
  | str (s : String)
  | date (d : CalDate)
  | other (isTruthy : Bool)
  deriving DecidableEq, Repr

/-- JS truthiness of a frontmatter value: the empty string is falsy, a Date
object is always truthy. -/
def FMValue.truthy : FMValue → Bool
  | FMValue.str s => !s.isEmpty
  | FMValue.date _ => true
  | FMValue.other t => t

/-- The slice of LinearCalendarSettings the algorithmic core reads
(src/main.ts lines 22-36). -/
structure LinearCalendarSettings where
  dailyNotesFolder : String
  dailyNoteFormat : String
  dateFields : List String
  showFileCreationDates : Bool
  deriving DecidableEq, Repr

/-- The extractor-relevant values of DEFAULT_SETTINGS (src/main.ts
lines 38-65). -/
def DEFAULT_SETTINGS : LinearCalendarSettings :=
  { dailyNotesFolder := ""
    dailyNoteFormat := "YYYY-MM-DD"
    dateFields := ["date", "created", "due"]
    showFileCreationDates := true }

/-- A vault note as the extractor sees it: its path, base filename, the
calendar date of its creation timestamp (new Date(file.stat.ctime) in local
time), and the frontmatter block of its metadata-cache entry
(metadataCache.getFileCache(file)?.frontmatter), none when absent. -/
structure TFile where
  path : String
  basename : String
  ctime : CalDate
  frontmatter : Option (List (String × FMValue))
  deriving DecidableEq, Repr

/-- Models JS String.prototype.startsWith: the first string starts with the
second.  Phrased over the character lists so that it evaluates inside the
kernel. -/
def strStartsWith (s pre : String) : Bool :=
  pre.toList.isPrefixOf s.toList

/-- Lookup of cache.frontmatter[field]; none models undefined. -/
def fmLookup (fm : List (String × FMValue)) (field : String) : Option FMValue :=
  (fm.find? (fun p => p.1 == field)).map (fun p => p.2)

/-- Embeds parseDate (src/main.ts lines 235-246): strings go through the
lenient parser, date-typed values pass through, anything else yields null. -/
def parseDate (lenient : String → Option CalDate) : FMValue → Option CalDate
  | FMValue.str s => lenient s
  | FMValue.date d => some d
  | FMValue.other _ => none

/-- Embeds parseDailyNoteDate (src/main.ts lines 219-233): if a non-empty
daily-notes folder is configured and the path does not start with it, the
source is skipped; otherwise the basename is parsed strictly against the
configured format. -/
def parseDailyNoteDate (strict : String → String → Option CalDate)
    (settings : LinearCalendarSettings) (file : TFile) : Option CalDate :=
  if settings.dailyNotesFolder != "" && !(strStartsWith file.path settings.dailyNotesFolder) then
    none
  else
    strict file.basename settings.dailyNoteFormat

/-- The dates contributed by the configured frontmatter fields, in
configured field order (the frontmatter loop of extractDatesFromFile,
src/main.ts lines 198-209): a field contributes when it is present, truthy
and parses. -/
def frontmatterDates (settings : LinearCalendarSettings)
    (lenient : String → Option CalDate) (file : TFile) : List CalDate :=
  match file.frontmatter with
  | none => []
  | some fm =>
    settings.dateFields.filterMap (fun field =>
      match fmLookup fm field with
      | some value => if value.truthy then parseDate lenient value else none
      | none => none)

/-- The dates collected by steps 1-2 of extractDatesFromFile (daily-note
filename source followed by the frontmatter fields), before the
creation-date fallback is considered. -/
def sourceDates (settings : LinearCalendarSettings)
    (strict : String → String → Option CalDate)
    (lenient : String → Option CalDate) (file : TFile) : List CalDate :=
  (match parseDailyNoteDate strict settings file with
   | some d => [d]
   | none => []) ++ frontmatterDates settings lenient file

/-- Embeds extractDatesFromFile (src/main.ts lines 187-217): the daily-note
and frontmatter sources run unconditionally; the creation date is pushed
only when they produced nothing and showFileCreationDates is on. -/
def extractDatesFromFile (settings : LinearCalendarSettings)
    (strict : String → String → Option CalDate)
    (lenient : String → Option CalDate) (file : TFile) : List CalDate :=
  let dates := sourceDates settings strict lenient file
  if settings.showFileCreationDates && dates.isEmpty then dates ++ [file.ctime]
  else dates

/-- JS String.prototype.padStart with pad string "0". -/
def padStart (n : Nat) (s : String) : String :=
  if n ≤ s.length then s else String.mk (List.replicate (n - s.length) '0') ++ s

/-- Embeds dateKey (src/main.ts lines 248-250): the template literal pads
month and day to two digits with padStart but renders the year bare. -/
def dateKey (d : CalDate) : String :=
  toString d.year ++ "-" ++ padStart 2 (toString d.month) ++ "-" ++ padStart 2 (toString d.day)

/-- The canonical key as the specification words it: a fully zero-padded
year-month-day string, the year in four digits.  Written from the spec, to
be compared with the source-derived dateKey. -/
def dateKeySpec (d : CalDate) : String :=
  padStart 4 (toString d.year) ++ "-" ++ padStart 2 (toString d.month) ++ "-" ++ padStart 2 (toString d.day)

/-- Embeds CalendarEvent (src/main.ts lines 14-20); loadEvents populates
only title, file and startDate. -/
structure CalendarEvent where
  title : String
  file : TFile
  startDate : CalDate
  endDate : Option CalDate := none
  color : Option String := none
  deriving DecidableEq, Repr

/-- The events map of the view, Map<string, CalendarEvent[]>, modelled as
an insertion-ordered association list (JS Map iterates keys in insertion
order). -/
abbrev EventIndex := List (String × List CalendarEvent)

/-- Models Map.prototype.has on the events map. -/
def indexHas (m : EventIndex) (key : String) : Bool :=
  m.any (fun p => p.1 == key)

/-- One loop body of loadEvents (src/main.ts lines 174-182): create the
sequence for the key on first use, then push the event onto it. -/
def indexPush (m : EventIndex) (key : String) (ev : CalendarEvent) : EventIndex :=
  if indexHas m key then
    m.map (fun p => if p.1 == key then (p.1, p.2 ++ [ev]) else p)
  else
    m ++ [(key, [ev])]

/-- Embeds loadEvents (src/main.ts lines 167-185): clear the map, then for
every file and every extracted date push a fresh CalendarEvent under the
canonical key of that date. -/
def loadEvents (settings : LinearCalendarSettings)
    (strict : String → String → Option CalDate)
    (lenient : String → Option CalDate) (files : List TFile) : EventIndex :=
  files.foldl (fun m file =>
    (extractDatesFromFile settings strict lenient file).foldl (fun m date =>
      indexPush m (dateKey date) { title := file.basename, file := file, startDate := date }) m) []

/-- The Gregorian leap-year rule, as realised by the host Date arithmetic
(divisible by 4, and not by 100 unless also by 400). -/
def isLeapYear (y : Nat) : Bool :=
  y % 4 == 0 && (y % 100 != 0 || y % 400 == 0)

/-- Embeds new Date(year, month + 1, 0).getDate() (src/main.ts lines 400 and
489), the number of days of the 0-based month: the Gregorian month lengths. -/
def daysInMonth (year month : Nat) : Nat :=
  match month with
  | 1 => if isLeapYear year then 29 else 28
  | 3 => 30
  | 5 => 30
  | 8 => 30
  | 10 => 30
  | _ => 31

/-- Lookup table of Sakamoto's weekday formula. -/
def sakamotoTable : List Nat := [0, 3, 2, 5, 0, 3, 5, 1, 4, 6, 2, 4]

/-- Embeds new Date(year, month, day).getDay() for a 0-based month
(src/main.ts lines 399-402): the proleptic-Gregorian weekday with Sunday = 0,
computed by Sakamoto's formula (faithful for years ≥ 1). -/
def getDay (year month day : Nat) : Nat :=
  let m := month + 1
  let y := if m < 3 then year - 1 else year
  (y + y / 4 - y / 100 + y / 400 + sakamotoTable.getD (m - 1) 0 + day) % 7

/-- The leading-empty-cell offset of a 0-based month: the weekday of day 1
remapped to Monday = 0, the expression (firstDay.getDay() + 6) % 7 shared by
calculateMaxColumns (src/main.ts line 402) and renderMonth (line 490). -/
def monthOffset (year month : Nat) : Nat :=
  (getDay year month 1 + 6) % 7

/-- Embeds calculateMaxColumns (src/main.ts lines 396-409): the running
maximum over the 12 months of offset + daysInMonth, starting from 0. -/
def calculateMaxColumns (year : Nat) : Nat :=
  (List.range 12).foldl (fun maxEndColumn month =>
    let offset := monthOffset year month
    let endColumn := offset + daysInMonth year month
    if maxEndColumn < endColumn then endColumn else maxEndColumn) 0

/-- Embeds adjustScale (src/main.ts lines 386-394) over exact rationals:
clamp current + delta into [lo, hi], then snap to one decimal place with
Math.round (which rounds half toward positive infinity, as Mathlib round
does). -/
def adjustScale (lo hi current delta : ℚ) : ℚ :=
  let newScale := max lo (min hi (current + delta))
  ((round (newScale * 10) : ℤ) : ℚ) / 10

/-- The width-axis instance of adjustScale: axis "x" uses min 0.5 and
max 5 (src/main.ts lines 388-389). -/
def adjustScaleX (current delta : ℚ) : ℚ :=
  adjustScale (1 / 2) 5 current delta

/-- Models JS String.prototype.split(",") on a string: the comma-separated
pieces, with empty pieces preserved. -/
def splitCommaAux : List Char → List Char → List String
  | [], acc => [String.mk acc.reverse]
  | c :: cs, acc =>
    if c == ',' then String.mk acc.reverse :: splitCommaAux cs []
    else splitCommaAux cs (c :: acc)

/-- JS value.split(",") as used by the label settings. -/
def splitComma (s : String) : List String :=
  splitCommaAux s.toList []

/-- Models JS String.prototype.trim: strip leading and trailing
whitespace. -/
def trimStr (s : String) : String :=
  String.mk (((s.toList.dropWhile Char.isWhitespace).reverse.dropWhile Char.isWhitespace).reverse)

/-- The shared label-input pipeline of the weekday- and month-label settings
(src/main.ts lines 716-719 and 735-738): split on commas, trim every piece,
drop the empty ones. -/
def parseLabels (value : String) : List String :=
  ((splitComma value).map trimStr).filter (fun s => s.length > 0)

/-- Embeds the weekday-labels onChange handler (src/main.ts lines 715-724):
the parsed list replaces the stored one only when it has exactly 7 entries. -/
def updateWeekdayLabels (current : List String) (value : String) : List String :=
  let labels := parseLabels value
  if labels.length == 7 then labels else current

/-- Embeds the month-labels onChange handler (src/main.ts lines 734-743):
the parsed list replaces the stored one only when it has exactly 12
entries. -/
def updateMonthLabels (current : List String) (value : String) : List String :=
  let labels := parseLabels value
  if labels.length == 12 then labels else current

/-- An item created inside the events container of a day cell: an event
pill or the overflow marker. -/
inductive RenderedItem where
  | pill (text : String)
  | more (text : String)
  deriving DecidableEq, Repr

/-- Whether a rendered item is an event pill. -/
def RenderedItem.isPill : RenderedItem → Bool
  | RenderedItem.pill _ => true
  | RenderedItem.more _ => false

/-- Embeds the events block of renderMonth for one day cell (src/main.ts
lines 542-569): when the day has events, a pill for each of the first three
(dayEvents.slice(0, 3)) carrying the first ten characters of the title
(event.title.substring(0, 10)), then a single overflow marker when more than
three events exist. -/
def renderDayEvents (dayEvents : List CalendarEvent) : List RenderedItem :=
  if dayEvents.length > 0 then
    (dayEvents.take 3).map (fun event => RenderedItem.pill (event.title.take 10))
      ++ (if dayEvents.length > 3 then
            [RenderedItem.more ("+" ++ toString (dayEvents.length - 3))]
          else [])
  else []

/-- Numeric value of a decimal digit character. -/
def charDigit (c : Char) : Nat :=
  c.toNat - 48

/-- Modelled from the spec: strict parsing by the moment library (an
external dependency absent from src/) of the literal format "YYYY-MM-DD" —
exactly four digits, a dash, two digits, a dash, two digits, accepted only
when month and day form a valid Gregorian calendar date; no partial or
lenient matches. -/
def parseYYYYMMDD (s : String) : Option CalDate :=
  match s.toList with
  | [y1, y2, y3, y4, h1, m1, m2, h2, d1, d2] =>
    if y1.isDigit && y2.isDigit && y3.isDigit && y4.isDigit && h1 == '-' &&
        m1.isDigit && m2.isDigit && h2 == '-' && d1.isDigit && d2.isDigit then
      let y := ((charDigit y1 * 10 + charDigit y2) * 10 + charDigit y3) * 10 + charDigit y4
      let mo := charDigit m1 * 10 + charDigit m2
      let dy := charDigit d1 * 10 + charDigit d2
      if 1 ≤ mo ∧ mo ≤ 12 ∧ 1 ≤ dy ∧ dy ≤ daysInMonth y (mo - 1) then
        some { year := y, month := mo, day := dy }
      else none
    else none
  | _ => none

/-- Modelled from the spec: moment(input, format, true) — strict parsing —
restricted to the one format the settled claims instantiate; other formats
are left unmodelled and yield none. -/
def momentStrict (input format : String) : Option CalDate :=
  if format == "YYYY-MM-DD" then parseYYYYMMDD input else none

/-! ## Helper lemmas for the grid-layout arithmetic -/

theorem daysInMonth_le (year month : Nat) : daysInMonth year month ≤ 31 := by
  unfold daysInMonth
  split
  · split <;> norm_num
  all_goals norm_num

theorem daysInMonth_jan (year : Nat) : daysInMonth year 0 = 31 := rfl

theorem monthOffset_lt (year month : Nat) : monthOffset year month < 7 :=
  Nat.mod_lt _ (by norm_num)

theorem foldlRunMax_le (f : Nat → Nat) (B : Nat) :
    ∀ (l : List Nat) (a : Nat), a ≤ B → (∀ x ∈ l, f x ≤ B) →
      l.foldl (fun acc x => if acc < f x then f x else acc) a ≤ B := by
  intro l
  induction l with
  | nil => intro a ha _; simpa using ha
  | cons x xs ih =>
    intro a ha hl
    simp only [List.foldl_cons]
    apply ih
    · by_cases hx : a < f x
      · simpa [hx] using hl x (List.mem_cons_self x xs)
      · simpa [hx] using ha
    · intro y hy; exact hl y (List.mem_cons_of_mem x hy)

theorem le_foldlRunMax_self (f : Nat → Nat) :
    ∀ (l : List Nat) (a : Nat), a ≤ l.foldl (fun acc x => if acc < f x then f x else acc) a := by
  intro l
  induction l with
  | nil => intro a; simp
  | cons x xs ih =>
    intro a
    simp only [List.foldl_cons]
    refine le_trans ?_ (ih _)
    by_cases hx : a < f x
    · simp [hx]; omega
    · simp [hx]

theorem le_foldlRunMax (f : Nat → Nat) :
    ∀ (l : List Nat) (a : Nat) (x : Nat), x ∈ l →
      f x ≤ l.foldl (fun acc x => if acc < f x then f x else acc) a := by
  intro l
  induction l with
  | nil => intro a x hx; cases hx
  | cons y ys ih =>
    intro a x hx
    rcases List.mem_cons.mp hx with h | h
    · subst h
      simp only [List.foldl_cons]
      refine le_trans ?_ (le_foldlRunMax_self f ys _)
      by_cases hy : a < f x
      · simp [hy]
      · simp [hy]; omega
    · simp only [List.foldl_cons]
      exact ih _ x h

theorem calculateMaxColumns_eq_foldl (year : Nat) :
    calculateMaxColumns year =
      (List.range 12).foldl
        (fun acc m => if acc < monthOffset year m + daysInMonth year m then
            monthOffset year m + daysInMonth year m else acc) 0 := rfl

/-- C2: for every year, the year-wide column count calculateMaxColumns —
the maximum over the 12 months of (Monday-based offset of day 1) +
(days in the month) — lies between 31 and 37. -/
theorem calculateMaxColumns_bounds (year : Nat) :
    31 ≤ calculateMaxColumns year ∧ calculateMaxColumns year ≤ 37 := by
  rw [calculateMaxColumns_eq_foldl]
  constructor
  · have h0 : (0 : Nat) ∈ List.range 12 := by decide
    have h := le_foldlRunMax (fun m => monthOffset year m + daysInMonth year m)
      (List.range 12) 0 0 h0
    simp only [] at h
    have hj : daysInMonth year 0 = 31 := rfl
    omega
  · apply foldlRunMax_le
    · norm_num
    · intro m _
      have h1 := monthOffset_lt year m
      have h2 := daysInMonth_le year m
      omega

/-- C3: the leading-empty-cell offset of every month is the native
(Sunday = 0) weekday of day 1 remapped by (w + 6) mod 7: it always lies in
0..6, a month starting on native Sunday gets offset 6, and a month starting
on native Monday gets offset 0. -/
theorem monthOffset_remap (year month : Nat) :
    monthOffset year month = (getDay year month 1 + 6) % 7 ∧
    monthOffset year month ≤ 6 ∧
    (getDay year month 1 = 0 → monthOffset year month = 6) ∧
    (getDay year month 1 = 1 → monthOffset year month = 0) := by
  refine ⟨rfl, Nat.lt_succ_iff.mp (monthOffset_lt year month), ?_, ?_⟩
  · intro h0; simp [monthOffset, h0]
  · intro h1; simp [monthOffset, h1]

/-- Witness for C3 at concrete months of 2024: September 2024 starts on a
native Sunday and gets offset 6; January 2024 starts on a native Monday and
gets offset 0. -/
theorem monthOffset_remap_witness :
    monthOffset 2024 8 = 6 ∧ monthOffset 2024 0 = 0 :=
  ⟨(monthOffset_remap 2024 8).2.2.1 (by decide),
   (monthOffset_remap 2024 0).2.2.2 (by decide)⟩

/-! ## The creation-date fallback (claim C1) -/

/-- C1: the creation-date fallback of extractDatesFromFile fires only when
the daily-note source and all configured frontmatter fields produced zero
dates and showFileCreationDates is on: with any source date present the
output is exactly the source dates (no creation timestamp appended); with
no source dates the output is empty when the flag is off and exactly the
creation date when it is on. -/
theorem extractDates_fallback (settings : LinearCalendarSettings)
    (strict : String → String → Option CalDate)
    (lenient : String → Option CalDate) (file : TFile) :
    (sourceDates settings strict lenient file ≠ [] →
      extractDatesFromFile settings strict lenient file =
        sourceDates settings strict lenient file) ∧
    (sourceDates settings strict lenient file = [] →
      settings.showFileCreationDates = false →
      extractDatesFromFile settings strict lenient file = []) ∧
    (sourceDates settings strict lenient file = [] →
      settings.showFileCreationDates = true →
      extractDatesFromFile settings strict lenient file = [file.ctime]) := by
  unfold extractDatesFromFile
  refine ⟨?_, ?_, ?_⟩
  · intro h
    simp [List.isEmpty_iff, h]
  · intro h hf
    simp [List.isEmpty_iff, h, hf]
  · intro h hf
    simp [List.isEmpty_iff, h, hf]

/-- Witness for C1: a note with a frontmatter date emits exactly the source
dates; a note with no dates at all yields nothing with the flag off and its
creation date with the flag on. -/
theorem extractDates_fallback_witness :
    (extractDatesFromFile DEFAULT_SETTINGS momentStrict parseYYYYMMDD
        ⟨"a.md", "a", ⟨2024, 1, 2⟩, some [("date", FMValue.str "2024-05-06")]⟩ =
      sourceDates DEFAULT_SETTINGS momentStrict parseYYYYMMDD
        ⟨"a.md", "a", ⟨2024, 1, 2⟩, some [("date", FMValue.str "2024-05-06")]⟩) ∧
    (extractDatesFromFile { DEFAULT_SETTINGS with showFileCreationDates := false }
        momentStrict parseYYYYMMDD ⟨"b.md", "b", ⟨2024, 1, 2⟩, none⟩ = []) ∧
    (extractDatesFromFile DEFAULT_SETTINGS momentStrict parseYYYYMMDD
        ⟨"b.md", "b", ⟨2024, 1, 2⟩, none⟩ = [CalDate.mk 2024 1 2]) :=
  ⟨(extractDates_fallback _ _ _ _).1 (by decide),
   (extractDates_fallback _ _ _ _).2.1 (by decide) (by decide),
   (extractDates_fallback _ _ _ _).2.2 (by decide) (by decide)⟩

/-! ## The event-index invariant (claim C4) -/

/-- Well-formedness of the events map: every stored sequence is non-empty
and every event in the sequence for key K starts on a date whose canonical
key is K. -/
def indexWF (m : EventIndex) : Prop :=
  ∀ p ∈ m, p.2 ≠ [] ∧ ∀ ev ∈ p.2, dateKey ev.startDate = p.1

theorem indexWF_nil : indexWF [] := by
  intro p hp
  cases hp

theorem indexWF_push (m : EventIndex) (key : String) (ev : CalendarEvent)
    (hm : indexWF m) (hk : dateKey ev.startDate = key) :
    indexWF (indexPush m key ev) := by
  unfold indexPush
  by_cases h : indexHas m key = true
  · simp only [h, if_true]
    intro p hp
    rcases List.mem_map.mp hp with ⟨q, hq, rfl⟩
    by_cases hq1 : q.1 == key
    · have hqk : q.1 = key := by simpa using hq1
      simp only [hq1, if_true]
      refine ⟨by simp, ?_⟩
      intro e he
      rcases List.mem_append.mp he with h1 | h1
      · exact (hm q hq).2 e h1
      · have : e = ev := by simpa using h1
        subst this
        simp [hk, hqk]
    · simp only [hq1, if_false]
      exact hm q hq
  · simp only [h, if_false]
    intro p hp
    rcases List.mem_append.mp hp with h1 | h1
    · exact hm p h1
    · have : p = (key, [ev]) := by simpa using h1
      subst this
      refine ⟨by simp, ?_⟩
      intro e he
      have : e = ev := by simpa using he
      subst this
      simpa using hk

theorem indexWF_foldFile (file : TFile) :
    ∀ (dates : List CalDate) (m : EventIndex), indexWF m →
      indexWF (dates.foldl (fun m date =>
        indexPush m (dateKey date)
          { title := file.basename, file := file, startDate := date }) m) := by
  intro dates
  induction dates with
  | nil => intro m hm; simpa using hm
  | cons d ds ih =>
    intro m hm
    simp only [List.foldl_cons]
    exact ih _ (indexWF_push m (dateKey d) _ hm rfl)

theorem indexWF_loadFold (settings : LinearCalendarSettings)
    (strict : String → String → Option CalDate)
    (lenient : String → Option CalDate) :
    ∀ (files : List TFile) (m : EventIndex), indexWF m →
      indexWF (files.foldl (fun m file =>
        (extractDatesFromFile settings strict lenient file).foldl (fun m date =>
          indexPush m (dateKey date)
            { title := file.basename, file := file, startDate := date }) m) m) := by
  intro files
  induction files with
  | nil => intro m hm; simpa using hm
  | cons f fs ih =>
    intro m hm
    simp only [List.foldl_cons]
    exact ih _ (indexWF_foldFile f _ m hm)

/-- C4: after any rebuild over any note collection, every key K present in
the events map stores a non-empty sequence in which every CalendarEvent has
a start date whose canonical key equals K. -/
theorem loadEvents_invariant (settings : LinearCalendarSettings)
    (strict : String → String → Option CalDate)
    (lenient : String → Option CalDate) (files : List TFile)
    (key : String) (evs : List CalendarEvent)
    (hmem : (key, evs) ∈ loadEvents settings strict lenient files) :
    evs ≠ [] ∧ ∀ ev ∈ evs, dateKey ev.startDate = key := by
  have h := indexWF_loadFold settings strict lenient files [] indexWF_nil
  exact h (key, evs) hmem

/-- A one-note sample vault used by concrete instantiations: a note with no
daily-note filename and no frontmatter, created on 2024-01-02. -/
def sampleFile : TFile :=
  ⟨"b.md", "b", ⟨2024, 1, 2⟩, none⟩

/-- The event loadEvents derives for sampleFile via the creation-date
fallback. -/
def sampleEvent : CalendarEvent :=
  ⟨"b", sampleFile, ⟨2024, 1, 2⟩, none, none⟩

/-- Witness for C4 on a one-note vault: the note is indexed under the key
of its creation date, the sequence is non-empty and its event's start-date
key is that key. -/
theorem loadEvents_invariant_witness :
    [sampleEvent] ≠ ([] : List CalendarEvent) ∧
    ∀ ev ∈ [sampleEvent], dateKey ev.startDate = "2024-01-02" :=
  loadEvents_invariant DEFAULT_SETTINGS momentStrict parseYYYYMMDD
    [sampleFile] "2024-01-02" [sampleEvent] (by decide)

/-! ## No deduplication across frontmatter fields (claim C5) -/

/-- A note whose frontmatter carries the same date string under the two
configured fields "date" and "due". -/
def dupFile (ct : CalDate) : TFile :=
  ⟨"note.md", "note", ct, some [("date", FMValue.str "2024-01-01"), ("due", FMValue.str "2024-01-01")]⟩

/-- The event loadEvents appends for one matching frontmatter field of
dupFile. -/
def dupEvent (ct d : CalDate) : CalendarEvent :=
  ⟨"note", dupFile ct, d, none, none⟩

/-- C5: with both "date" and "due" configured and carrying values that
parse to the same calendar date, the index builder stores two separate
CalendarEvents for the note under that single key — no deduplication by
(note, date). -/
theorem loadEvents_no_dedup (strict : String → String → Option CalDate)
    (lenient : String → Option CalDate) (ct d : CalDate)
    (hstrict : strict "note" "YYYY-MM-DD" = none)
    (hlenient : lenient "2024-01-01" = some d) :
    loadEvents DEFAULT_SETTINGS strict lenient [dupFile ct] =
      [(dateKey d, [dupEvent ct d, dupEvent ct d])] := by
  have hne : ("2024-01-01" : String).isEmpty = false := by decide
  have hfm : frontmatterDates DEFAULT_SETTINGS lenient (dupFile ct) = [d, d] := by
    unfold frontmatterDates DEFAULT_SETTINGS dupFile
    simp only [List.filterMap_cons, fmLookup, List.find?]
    simp [parseDate, FMValue.truthy, hlenient, hne]
  have hsrc : sourceDates DEFAULT_SETTINGS strict lenient (dupFile ct) = [d, d] := by
    unfold sourceDates parseDailyNoteDate
    rw [hfm]
    simp [DEFAULT_SETTINGS, dupFile, hstrict]
  have hex : extractDatesFromFile DEFAULT_SETTINGS strict lenient (dupFile ct) = [d, d] := by
    unfold extractDatesFromFile
    rw [hsrc]
    simp
  unfold loadEvents
  simp only [List.foldl_cons, List.foldl_nil]
  rw [hex]
  simp only [List.foldl_cons, List.foldl_nil]
  unfold indexPush indexHas dupEvent dupFile
  simp

/-- Witness for C5 with concrete parsers: the strict parser rejects the
basename "note" and the lenient parser reads "2024-01-01" as 2024-01-01,
so the note lands twice under key "2024-01-01". -/
theorem loadEvents_no_dedup_witness :
    loadEvents DEFAULT_SETTINGS momentStrict parseYYYYMMDD [dupFile ⟨2023, 7, 8⟩] =
      [(dateKey ⟨2024, 1, 1⟩, [dupEvent ⟨2023, 7, 8⟩ ⟨2024, 1, 1⟩, dupEvent ⟨2023, 7, 8⟩ ⟨2024, 1, 1⟩])] :=
  loadEvents_no_dedup momentStrict parseYYYYMMDD ⟨2023, 7, 8⟩ ⟨2024, 1, 1⟩ (by decide) (by decide)

/-! ## The daily-note filename source (claim C6) -/

/-- C6: with daily-notes folder "Daily" and format "YYYY-MM-DD", the
daily-note source reads exactly 2024-03-15 out of a note at path
Daily/2024-03-15.md whatever its frontmatter or creation time; and whenever
a non-empty folder is configured and the path does not start with it, the
source yields nothing. -/
theorem parseDailyNoteDate_spec :
    (∀ (settings : LinearCalendarSettings) (file : TFile),
      settings.dailyNotesFolder = "Daily" →
      settings.dailyNoteFormat = "YYYY-MM-DD" →
      file.path = "Daily/2024-03-15.md" →
      file.basename = "2024-03-15" →
      parseDailyNoteDate momentStrict settings file = some ⟨2024, 3, 15⟩) ∧
    (∀ (strict : String → String → Option CalDate)
        (settings : LinearCalendarSettings) (file : TFile),
      settings.dailyNotesFolder ≠ "" →
      strStartsWith file.path settings.dailyNotesFolder = false →
      parseDailyNoteDate strict settings file = none) := by
  constructor
  · intro settings file h1 h2 h3 h4
    unfold parseDailyNoteDate
    rw [h1, h2, h3, h4]
    decide
  · intro strict settings file h1 h2
    unfold parseDailyNoteDate
    rw [h2]
    have hb : (settings.dailyNotesFolder != "") = true := by
      simpa [bne_iff_ne] using h1
    rw [hb]
    simp

/-- Witness for C6: the round-trip succeeds on a note under Daily/ with
unrelated frontmatter, and the source is skipped for a note outside the
configured folder. -/
theorem parseDailyNoteDate_spec_witness :
    parseDailyNoteDate momentStrict ⟨"Daily", "YYYY-MM-DD", ["date", "created", "due"], true⟩
      ⟨"Daily/2024-03-15.md", "2024-03-15", ⟨2020, 1, 1⟩,
        some [("date", FMValue.str "1999-12-31")]⟩ = some ⟨2024, 3, 15⟩ ∧
    parseDailyNoteDate momentStrict ⟨"Daily", "YYYY-MM-DD", ["date", "created", "due"], true⟩
      ⟨"Other/2024-03-15.md", "2024-03-15", ⟨2020, 1, 1⟩, none⟩ = none :=
  ⟨parseDailyNoteDate_spec.1 _ _ rfl rfl rfl rfl,
   parseDailyNoteDate_spec.2 momentStrict _ _ (by decide) (by decide)⟩

/-! ## The canonical date key (claim C7) -/

/-- Counterexample to C7 as stated: at the representable calendar date
999-01-02 the key produced by dateKey renders the year in three digits, not
four, so it differs from the fully zero-padded key the spec describes. -/
theorem dateKey_999_not_fully_padded :
    dateKey ⟨999, 1, 2⟩ = "999-01-02" ∧ dateKey ⟨999, 1, 2⟩ ≠ dateKeySpec ⟨999, 1, 2⟩ := by
  decide

theorem padStart_of_le (n : Nat) (s : String) (h : n ≤ s.length) : padStart n s = s := by
  simp [padStart, h]

theorem padStart_two_len (m : Nat) (h1 : 1 ≤ m) (h2 : m ≤ 31) :
    (padStart 2 (toString m)).length = 2 := by
  interval_cases m <;> decide

/-- C7 amended: dateKey zero-pads month and day to exactly two digits but
leaves the year unpadded, so the key is the fully zero-padded
"YYYY-MM-DD" form exactly when the year's decimal rendering has at least
four digits; then the key's length is the year's length plus six. -/
theorem dateKey_padded (d : CalDate) (hy : 4 ≤ (toString d.year).length)
    (hm1 : 1 ≤ d.month) (hm2 : d.month ≤ 12) (hd1 : 1 ≤ d.day) (hd2 : d.day ≤ 31) :
    dateKey d = dateKeySpec d ∧ (dateKey d).length = (toString d.year).length + 6 := by
  constructor
  · unfold dateKey dateKeySpec
    rw [padStart_of_le 4 _ hy]
  · unfold dateKey
    have h1 := padStart_two_len d.month hm1 (le_trans hm2 (by norm_num))
    have h2 := padStart_two_len d.day hd1 hd2
    have hdash : ("-" : String).length = 1 := by decide
    simp [String.length_append, h1, h2, hdash]

/-- Witness for C7 amended at 2024-03-05: the key coincides with the fully
padded form and has ten characters. -/
theorem dateKey_padded_witness :
    dateKey ⟨2024, 3, 5⟩ = dateKeySpec ⟨2024, 3, 5⟩ ∧
    (dateKey ⟨2024, 3, 5⟩).length = (toString (2024 : Nat)).length + 6 :=
  dateKey_padded ⟨2024, 3, 5⟩ (by decide) (by decide) (by decide) (by decide) (by decide)

/-! ## The width-scale adjuster (claim C8) -/

/-- C8: one width-scale adjustment always lands in [0.5, 5] — an
adjustment that would leave the range lands exactly on the bound — and the
stored value is a multiple of 0.1 within 0.05 of the clamped value
(Math.round snapping to the nearest tenth). -/
theorem adjustScaleX_clamps (current delta : ℚ) :
    1 / 2 ≤ adjustScaleX current delta ∧
    adjustScaleX current delta ≤ 5 ∧
    (∃ k : ℤ, adjustScaleX current delta = (k : ℚ) / 10 ∧
      |adjustScaleX current delta - max (1 / 2) (min 5 (current + delta))| ≤ 1 / 20) ∧
    (current + delta ≤ 1 / 2 → adjustScaleX current delta = 1 / 2) ∧
    (5 ≤ current + delta → adjustScaleX current delta = 5) := by
  have hax : adjustScaleX current delta =
      ((round ((max (1 / 2) (min 5 (current + delta))) * 10) : ℤ) : ℚ) / 10 := by
    simp [adjustScaleX, adjustScale]
  set c : ℚ := max (1 / 2) (min 5 (current + delta)) with hc
  have hc1 : 1 / 2 ≤ c := le_max_left _ _
  have hc2 : c ≤ 5 := max_le (by norm_num) (min_le_left _ _)
  have hr5 : (5 : ℤ) ≤ round (c * 10) := by
    rw [round_eq, Int.le_floor]
    push_cast
    linarith
  have hr50 : round (c * 10) ≤ 50 := by
    rw [round_eq]
    have h51 : (⌊c * 10 + 1 / 2⌋ : ℤ) < 51 := by
      rw [Int.floor_lt]
      push_cast
      linarith
    omega
  have habs : |c * 10 - (round (c * 10) : ℚ)| ≤ 1 / 2 := abs_sub_round (c * 10)
  refine ⟨?_, ?_, ⟨round (c * 10), hax, ?_⟩, ?_, ?_⟩
  · rw [hax]
    have h5 : ((5 : ℤ) : ℚ) ≤ ((round (c * 10) : ℤ) : ℚ) := by exact_mod_cast hr5
    push_cast at h5 ⊢
    linarith
  · rw [hax]
    have h50 : ((round (c * 10) : ℤ) : ℚ) ≤ ((50 : ℤ) : ℚ) := by exact_mod_cast hr50
    push_cast at h50 ⊢
    linarith
  · rw [hax, abs_sub_comm]
    have he : c - ((round (c * 10) : ℤ) : ℚ) / 10 = (c * 10 - (round (c * 10) : ℚ)) / 10 := by
      ring
    rw [he, abs_div]
    have h10 : |(10 : ℚ)| = 10 := by norm_num
    rw [h10]
    linarith
  · intro h
    have hmin : min 5 (current + delta) = current + delta := min_eq_right (by linarith)
    have hmax : c = 1 / 2 := by rw [hc, hmin]; exact max_eq_left h
    rw [hax, hmax]
    norm_num
  · intro h
    have hmin : min 5 (current + delta) = 5 := min_eq_left h
    have hmax : c = 5 := by rw [hc, hmin]; exact max_eq_right (by norm_num)
    rw [hax, hmax]
    norm_num

/-- Witness for C8: from 0.5 a decrease of 0.2 stays exactly at the lower
bound; from 5 an increase of 0.2 stays exactly at the upper bound. -/
theorem adjustScaleX_clamps_witness :
    adjustScaleX (1 / 2) (-(1 / 5)) = 1 / 2 ∧ adjustScaleX 5 (1 / 5) = 5 :=
  ⟨(adjustScaleX_clamps (1 / 2) (-(1 / 5))).2.2.2.1 (by norm_num),
   (adjustScaleX_clamps 5 (1 / 5)).2.2.2.2 (by norm_num)⟩

/-! ## The label settings (claim C9) -/

/-- C9: the weekday-label input replaces the stored array exactly when the
comma-split, trimmed, empties-removed list has 7 entries, and the
month-label input exactly when it has 12; on any other input the stored
value is retained unchanged. -/
theorem updateLabels_length (current : List String) (value : String) :
    ((parseLabels value).length = 7 → updateWeekdayLabels current value = parseLabels value) ∧
    ((parseLabels value).length ≠ 7 → updateWeekdayLabels current value = current) ∧
    ((parseLabels value).length = 12 → updateMonthLabels current value = parseLabels value) ∧
    ((parseLabels value).length ≠ 12 → updateMonthLabels current value = current) := by
  refine ⟨?_, ?_, ?_, ?_⟩ <;> intro h <;>
    simp [updateWeekdayLabels, updateMonthLabels, h]

/-- Witness for C9: a 3-entry weekday input is rejected (prior labels kept),
a 7-entry one is accepted; a 3-entry month input is rejected, a 12-entry one
is accepted. -/
theorem updateLabels_length_witness :
    updateWeekdayLabels ["M", "T", "W", "T", "F", "S", "S"] "a, b, c" =
      ["M", "T", "W", "T", "F", "S", "S"] ∧
    updateWeekdayLabels ["M", "T", "W", "T", "F", "S", "S"] "Mo,Tu,We,Th,Fr,Sa,Su" =
      ["Mo", "Tu", "We", "Th", "Fr", "Sa", "Su"] ∧
    updateMonthLabels ["Jan", "Feb", "Mar", "Apr", "May", "Jun", "Jul", "Aug", "Sep", "Oct", "Nov", "Dec"]
      "a, b, c" =
      ["Jan", "Feb", "Mar", "Apr", "May", "Jun", "Jul", "Aug", "Sep", "Oct", "Nov", "Dec"] ∧
    updateMonthLabels ["Jan", "Feb", "Mar", "Apr", "May", "Jun", "Jul", "Aug", "Sep", "Oct", "Nov", "Dec"]
      "1,2,3,4,5,6,7,8,9,10,11,12" =
      ["1", "2", "3", "4", "5", "6", "7", "8", "9", "10", "11", "12"] :=
  ⟨(updateLabels_length ["M", "T", "W", "T", "F", "S", "S"] "a, b, c").2.1 (by decide),
   ((updateLabels_length ["M", "T", "W", "T", "F", "S", "S"] "Mo,Tu,We,Th,Fr,Sa,Su").1
      (by decide)).trans (by decide),
   (updateLabels_length
      ["Jan", "Feb", "Mar", "Apr", "May", "Jun", "Jul", "Aug", "Sep", "Oct", "Nov", "Dec"]
      "a, b, c").2.2.2 (by decide),
   ((updateLabels_length
      ["Jan", "Feb", "Mar", "Apr", "May", "Jun", "Jul", "Aug", "Sep", "Oct", "Nov", "Dec"]
      "1,2,3,4,5,6,7,8,9,10,11,12").2.2.1 (by decide)).trans (by decide)⟩

/-! ## Day-cell event rendering (claim C10) -/

theorem filter_not_isPill_map (l : List RenderedItem)
    (hl : ∀ a ∈ l, RenderedItem.isPill a = true) :
    l.filter (fun i => !(RenderedItem.isPill i)) = [] := by
  induction l with
  | nil => simp
  | cons x xs ih =>
    have hx := hl x (List.mem_cons_self x xs)
    simp only [List.filter_cons, hx]
    simpa using ih (fun a ha => hl a (List.mem_cons_of_mem x ha))

theorem filter_isPill_map (l : List CalendarEvent) (g : CalendarEvent → String) :
    (l.map (fun e => RenderedItem.pill (g e))).filter RenderedItem.isPill =
      l.map (fun e => RenderedItem.pill (g e)) := by
  induction l with
  | nil => simp
  | cons x xs ih => simp [RenderedItem.isPill, ih]

/-- C10: a day cell renders a pill (its text the first ten characters of
the note title) for exactly the first three of the day's events, and a
single overflow marker "+N" appears exactly when the day has more than
three events, with N the event count minus three. -/
theorem renderDayEvents_spec (dayEvents : List CalendarEvent) :
    (renderDayEvents dayEvents).filter RenderedItem.isPill =
      (dayEvents.take 3).map (fun e => RenderedItem.pill (e.title.take 10)) ∧
    (dayEvents.length ≤ 3 →
      (renderDayEvents dayEvents).filter (fun i => !(RenderedItem.isPill i)) = []) ∧
    (dayEvents.length > 3 →
      (renderDayEvents dayEvents).filter (fun i => !(RenderedItem.isPill i)) =
        [RenderedItem.more ("+" ++ toString (dayEvents.length - 3))]) := by
  have hpills : ∀ a ∈ (dayEvents.take 3).map (fun e => RenderedItem.pill (e.title.take 10)),
      RenderedItem.isPill a = true := by
    intro a ha
    rcases List.mem_map.mp ha with ⟨e, _, rfl⟩
    rfl
  refine ⟨?_, ?_, ?_⟩
  · unfold renderDayEvents
    by_cases h0 : dayEvents.length > 0
    · simp only [h0, if_true]
      rw [List.filter_append, filter_isPill_map]
      by_cases h3 : dayEvents.length > 3
      · simp [h3, RenderedItem.isPill]
      · simp [h3]
    · have hnil : dayEvents = [] := List.eq_nil_of_length_eq_zero (by omega)
      simp [hnil, renderDayEvents]
  · intro h
    unfold renderDayEvents
    by_cases h0 : dayEvents.length > 0
    · have h3 : ¬ dayEvents.length > 3 := by omega
      simp only [h0, h3, if_true, if_false]
      rw [List.append_nil]
      exact filter_not_isPill_map _ hpills
    · have hnil : dayEvents = [] := List.eq_nil_of_length_eq_zero (by omega)
      simp [hnil, renderDayEvents]
  · intro h3
    have h0 : dayEvents.length > 0 := by omega
    unfold renderDayEvents
    simp only [h0, h3, if_true]
    rw [List.filter_append, filter_not_isPill_map _ hpills]
    simp [RenderedItem.isPill]

/-- Witness for C10: with five copies of the sample event in one day the
overflow marker reads "+2"; with two events there is no marker. -/
theorem renderDayEvents_spec_witness :
    (renderDayEvents (List.replicate 5 sampleEvent)).filter
        (fun i => !(RenderedItem.isPill i)) = [RenderedItem.more "+2"] ∧
    (renderDayEvents (List.replicate 2 sampleEvent)).filter
        (fun i => !(RenderedItem.isPill i)) = [] :=
  ⟨((renderDayEvents_spec (List.replicate 5 sampleEvent)).2.2 (by decide)).trans (by decide),
   (renderDayEvents_spec (List.replicate 2 sampleEvent)).2.1 (by decide)⟩
